import Mathlib

/-!
Verification of the mdx two-pass label/reference resolver
(`src/mdxrp/processor.py`), shallowly embedded in Lean.

Text is modelled as `List Char` (one list per line, newline-exclusive).
The regex character class `[a-zA-Z0-9_]` (and `\w`, used for reference
patterns) is modelled as the ASCII word-character class; Python's `\s`
is modelled as the ASCII whitespace class.
-/

abbrev Str := List Char

/-- ASCII word character, the class `[a-zA-Z0-9_]` of the patterns. -/
def isWordChar (c : Char) : Bool :=
  c.isAlpha || c.isDigit || c == '_'

/-- ASCII whitespace, Python's `\s` on ASCII text. -/
def isSpace (c : Char) : Bool :=
  c == ' ' || c == '\t' || c == '\n' || c == '\r' || c == '\x0b' || c == '\x0c'

/-- Python's `str.ljust`: pad on the right with spaces up to width `n`;
a string already at least `n` wide is returned unchanged. -/
def ljust (s : Str) (n : Nat) : Str :=
  s ++ List.replicate (n - s.length) ' '

/-- Python's `str(n)` for a natural number. -/
def natStr (n : Nat) : Str :=
  (Nat.repr n).data

/-- Association-list lookup, modelling Python `dict` lookup
(keys are unique in every map the processor builds). -/
def alookup (k : Str) : List (Str × α) → Option α
  | [] => none
  | (k', v) :: rest => if k' = k then some v else alookup k rest

/-- Python `dict` update: overwrite in place if the key is present,
append at the end (insertion order) if it is new. -/
def setCounter (g : Str) (n : Nat) : List (Str × Nat) → List (Str × Nat)
  | [] => [(g, n)]
  | (g', m) :: rest => if g' = g then (g, n) :: rest else (g', m) :: setCounter g n rest

/-- The state of `MarkdownProcessor` (`reset` fields). -/
structure RegSt where
  label_map : List (Str × Str)
  group_counters : List (Str × Nat)
  global_counter : Nat
  line_num : Nat
deriving Repr, DecidableEq

/-- `MarkdownProcessor.reset`: fresh state. -/
def resetState : RegSt := ⟨[], [], 1, 0⟩

/-- The flat key `f"{group}:{label}"` used in `label_map`. -/
def gkey (g l : Str) : Str := g ++ ':' :: l

/-- The body of the grouped-declaration branch of `collect_labels`:
if `group:label` is unseen, assign the group's counter (default 1)
and advance it. -/
def declareGrouped (st : RegSt) (g l : Str) : RegSt :=
  if (alookup (gkey g l) st.label_map).isSome then st
  else
    let c := (alookup g st.group_counters).getD 1
    { st with
      label_map := st.label_map ++ [(gkey g l, natStr c)],
      group_counters := setCounter g (c + 1) st.group_counters }

/-- The body of the global-declaration branch of `collect_labels`:
if `label` is unseen, assign the global counter and advance it. -/
def declareGlobal (st : RegSt) (l : Str) : RegSt :=
  if (alookup l st.label_map).isSome then st
  else
    { st with
      label_map := st.label_map ++ [(l, natStr st.global_counter)],
      global_counter := st.global_counter + 1 }

/-- Match of `([a-zA-Z0-9_]+):([a-zA-Z0-9_]+)` at the head of `s`
(the text after a `@`): returns the two greedily-maximal tokens and
the rest of the line.  Backtracking cannot produce any other match,
since `:` is not a word character. -/
def tryGrouped (s : Str) : Option (Str × Str × Str) :=
  if s.takeWhile isWordChar = [] then none
  else
    match s.dropWhile isWordChar with
    | c :: r2 =>
      if c = ':' then
        if r2.takeWhile isWordChar = [] then none
        else some (s.takeWhile isWordChar, r2.takeWhile isWordChar, r2.dropWhile isWordChar)
      else none
    | [] => none

/-- Match of `([a-zA-Z0-9_]+)` at the head of `s` (after a `@`). -/
def tryGlobal (s : Str) : Option (Str × Str) :=
  if s.takeWhile isWordChar = [] then none
  else some (s.takeWhile isWordChar, s.dropWhile isWordChar)

/-- Match of `([a-zA-Z0-9_]+)(?!:[a-zA-Z0-9_])\b` at the head of `s`
(after a `@`), the global pattern of the collection pass: the maximal
word run, refused when a `:` followed by a word character comes next
(shorter runs always fail the word-boundary check). -/
def lookaheadBlocked : Str → Bool
  | c1 :: c2 :: _ => c1 == ':' && isWordChar c2
  | _ => false

def tryGlobalCollect (s : Str) : Option (Str × Str) :=
  if s.takeWhile isWordChar = [] then none
  else if lookaheadBlocked (s.dropWhile isWordChar) then none
  else some (s.takeWhile isWordChar, s.dropWhile isWordChar)

/-- Match of `(\w+):(\w+)|(\w+)` at the head of `s` (after a `#`):
returns the reference key (which equals the matched text without the
`#`) and the rest of the line.  The grouped alternative is tried
first; when it fails the global alternative takes the bare word run. -/
def tryRef (s : Str) : Option (Str × Str) :=
  if s.takeWhile isWordChar = [] then none
  else
    match s.dropWhile isWordChar with
    | c :: r2 =>
      if c = ':' then
        if r2.takeWhile isWordChar = [] then some (s.takeWhile isWordChar, ':' :: r2)
        else some (s.takeWhile isWordChar ++ ':' :: r2.takeWhile isWordChar,
                   r2.dropWhile isWordChar)
      else some (s.takeWhile isWordChar, c :: r2)
    | [] => some (s.takeWhile isWordChar, [])

/-- The table-row detector `re.match(r"^\s*\|.*\S.*\|\s*$", line)`:
after leading whitespace a `|`, after trailing whitespace a closing
`|`, and at least one non-whitespace character strictly between. -/
def insideTable (s : Str) : Bool :=
  match s.dropWhile isSpace with
  | c :: r =>
    c == '|' &&
      (match r.reverse.dropWhile isSpace with
       | c2 :: u => c2 == '|' && u.any (fun x => !(isSpace x))
       | [] => false)
  | [] => false

theorem len_dropWhile_le (p : Char → Bool) :
    ∀ l : List Char, (l.dropWhile p).length ≤ l.length := by
  intro l
  induction l with
  | nil => simp [List.dropWhile]
  | cons a l ih =>
    simp only [List.dropWhile]
    split
    · exact Nat.le_succ_of_le ih
    · simp

theorem mem_takeWhile_word (p : Char → Bool) :
    ∀ (l : List Char) (a : Char), a ∈ l.takeWhile p → p a := by
  intro l
  induction l with
  | nil => intro a h; simp [List.takeWhile] at h
  | cons b l ih =>
    intro a h
    simp only [List.takeWhile] at h
    split at h
    · rcases List.mem_cons.mp h with h1 | h1
      · subst h1; assumption
      · exact ih a h1
    · simp at h

theorem tryGrouped_decomp {s g l r : Str} (h : tryGrouped s = some (g, l, r)) :
    s = g ++ ':' :: (l ++ r) ∧ g ≠ [] ∧ l ≠ [] ∧
      (∀ c ∈ g, isWordChar c = true) ∧ (∀ c ∈ l, isWordChar c = true) := by
  by_cases hg : s.takeWhile isWordChar = []
  · simp [tryGrouped, hg] at h
  · cases hdw : s.dropWhile isWordChar with
    | nil => simp [tryGrouped, hg, hdw] at h
    | cons c r2 =>
      by_cases hc : c = ':'
      · subst hc
        by_cases hl : r2.takeWhile isWordChar = []
        · simp [tryGrouped, hg, hdw, hl] at h
        · simp [tryGrouped, hg, hdw, hl] at h
          obtain ⟨h1, h2, h3⟩ := h
          subst h1; subst h2; subst h3
          refine ⟨?_, hg, hl, fun c hc => List.mem_takeWhile_imp hc,
            fun c hc => List.mem_takeWhile_imp hc⟩
          conv_lhs => rw [← List.takeWhile_append_dropWhile (p := isWordChar) (l := s)]
          rw [hdw]
          simp [List.takeWhile_append_dropWhile]
      · simp [tryGrouped, hg, hdw, hc] at h

theorem tryGrouped_len {s g l r : Str} (h : tryGrouped s = some (g, l, r)) :
    r.length ≤ s.length := by
  obtain ⟨hs, -, -, -, -⟩ := tryGrouped_decomp h
  subst hs
  simp
  omega

theorem tryGlobal_decomp {s w r : Str} (h : tryGlobal s = some (w, r)) :
    s = w ++ r ∧ w ≠ [] ∧ (∀ c ∈ w, isWordChar c = true) := by
  by_cases hg : s.takeWhile isWordChar = []
  · simp [tryGlobal, hg] at h
  · simp [tryGlobal, hg] at h
    obtain ⟨h1, h2⟩ := h
    subst h1; subst h2
    exact ⟨(List.takeWhile_append_dropWhile (p := isWordChar) (l := s)).symm, hg,
      fun c hc => List.mem_takeWhile_imp hc⟩

theorem tryGlobal_len {s w r : Str} (h : tryGlobal s = some (w, r)) :
    r.length ≤ s.length := by
  obtain ⟨hs, -, -⟩ := tryGlobal_decomp h
  subst hs
  simp

theorem tryGlobalCollect_decomp {s w r : Str} (h : tryGlobalCollect s = some (w, r)) :
    s = w ++ r ∧ w ≠ [] ∧ (∀ c ∈ w, isWordChar c = true) := by
  by_cases hg : s.takeWhile isWordChar = []
  · simp [tryGlobalCollect, hg] at h
  · by_cases hb : lookaheadBlocked (s.dropWhile isWordChar) = true
    · simp [tryGlobalCollect, hg, hb] at h
    · simp [tryGlobalCollect, hg, hb] at h
      obtain ⟨h1, h2⟩ := h
      subst h1; subst h2
      exact ⟨(List.takeWhile_append_dropWhile (p := isWordChar) (l := s)).symm, hg,
        fun c hc => List.mem_takeWhile_imp hc⟩

theorem tryGlobalCollect_len {s w r : Str} (h : tryGlobalCollect s = some (w, r)) :
    r.length ≤ s.length := by
  obtain ⟨hs, -, -⟩ := tryGlobalCollect_decomp h
  subst hs
  simp

theorem tryRef_decomp {s k r : Str} (h : tryRef s = some (k, r)) :
    s = k ++ r ∧ k ≠ [] := by
  by_cases hg : s.takeWhile isWordChar = []
  · simp [tryRef, hg] at h
  · have hs := (List.takeWhile_append_dropWhile (p := isWordChar) (l := s)).symm
    cases hdw : s.dropWhile isWordChar with
    | nil =>
      simp [tryRef, hg, hdw] at h
      obtain ⟨h1, h2⟩ := h
      subst h1; subst h2
      rw [hdw] at hs
      exact ⟨hs, hg⟩
    | cons c r2 =>
      rw [hdw] at hs
      by_cases hc : c = ':'
      · subst hc
        by_cases hl : r2.takeWhile isWordChar = []
        · simp [tryRef, hg, hdw, hl] at h
          obtain ⟨h1, h2⟩ := h
          subst h1; subst h2
          exact ⟨hs, hg⟩
        · simp [tryRef, hg, hdw, hl] at h
          obtain ⟨h1, h2⟩ := h
          subst h1; subst h2
          constructor
          · conv_lhs => rw [hs]
            simp [List.takeWhile_append_dropWhile]
          · simp
      · simp [tryRef, hg, hdw, hc] at h
        obtain ⟨h1, h2⟩ := h
        subst h1; subst h2
        exact ⟨hs, hg⟩

theorem tryRef_len {s k r : Str} (h : tryRef s = some (k, r)) :
    r.length ≤ s.length := by
  obtain ⟨hs, -⟩ := tryRef_decomp h
  subst hs
  simp

/-- The grouped-declaration matches of one line, in `re.finditer` scan
order (leftmost, non-overlapping, resuming after each match). -/
def groupedTokens : Str → List (Str × Str)
  | [] => []
  | c :: rest =>
    if c = '@' then
      match h : tryGrouped rest with
      | some (g, l, r) => (g, l) :: groupedTokens r
      | none => groupedTokens rest
    else groupedTokens rest
termination_by s => s.length
decreasing_by
  · simp only [List.length_cons]
    exact Nat.lt_succ_of_le (tryGrouped_len h)
  · simp
  · simp

/-- The global-declaration matches of one line for the collection pass
(pattern with the negative lookahead), in scan order. -/
def globalCollectTokens : Str → List Str
  | [] => []
  | c :: rest =>
    if c = '@' then
      match h : tryGlobalCollect rest with
      | some (w, r) => w :: globalCollectTokens r
      | none => globalCollectTokens rest
    else globalCollectTokens rest
termination_by s => s.length
decreasing_by
  · simp only [List.length_cons]
    exact Nat.lt_succ_of_le (tryGlobalCollect_len h)
  · simp
  · simp

/-- One line of `collect_labels`: declare every grouped match, then
every global match, both scans over the same original line. -/
def collectLine (st : RegSt) (line : Str) : RegSt :=
  (globalCollectTokens line).foldl declareGlobal
    ((groupedTokens line).foldl (fun s p => declareGrouped s p.1 p.2) st)

/-- `MarkdownProcessor.collect_labels`: fold the per-line collection
over the whole line sequence; returns only the updated state. -/
def collect_labels (st : RegSt) (lines : List Str) : RegSt :=
  lines.foldl collectLine st

/-- `re.sub` of the grouped-declaration pattern with
`replace_grouped_label`: each match is replaced by its registry
number (or itself when the key is absent), `ljust`-padded to the
match's width inside a table. -/
def subGrouped (m : List (Str × Str)) (tbl : Bool) : Str → Str
  | [] => []
  | c :: rest =>
    if c = '@' then
      match h : tryGrouped rest with
      | some (g, l, r) =>
        let mt := '@' :: gkey g l
        let num := (alookup (gkey g l) m).getD mt
        (if tbl then ljust num mt.length else num) ++ subGrouped m tbl r
      | none => c :: subGrouped m tbl rest
    else c :: subGrouped m tbl rest
termination_by s => s.length
decreasing_by
  · simp only [List.length_cons]
    exact Nat.lt_succ_of_le (tryGrouped_len h)
  · simp
  · simp

/-- `re.sub` of the plain global-declaration pattern with
`replace_global_label` (no lookahead in the substitution pass). -/
def subGlobal (m : List (Str × Str)) (tbl : Bool) : Str → Str
  | [] => []
  | c :: rest =>
    if c = '@' then
      match h : tryGlobal rest with
      | some (w, r) =>
        let mt := '@' :: w
        let num := (alookup w m).getD mt
        (if tbl then ljust num mt.length else num) ++ subGlobal m tbl r
      | none => c :: subGlobal m tbl rest
    else c :: subGlobal m tbl rest
termination_by s => s.length
decreasing_by
  · simp only [List.length_cons]
    exact Nat.lt_succ_of_le (tryGlobal_len h)
  · simp
  · simp

/-- `re.sub` of the reference pattern with `replace_reference`, at
positions past the start of the line: resolved references are
substituted (padded inside a table), unresolved ones are left
verbatim and recorded as `(line_number, key)`. -/
def subRefScan (m : List (Str × Str)) (tbl : Bool) (ln : Nat) :
    Str → Str × List (Nat × Str)
  | [] => ([], [])
  | c :: rest =>
    if c = '#' then
      match h : tryRef rest with
      | some (k, r) =>
        match alookup k m with
        | some num =>
          let res := subRefScan m tbl ln r
          ((if tbl then ljust num (1 + k.length) else num) ++ res.1, res.2)
        | none =>
          let res := subRefScan m tbl ln r
          ('#' :: (k ++ res.1), (ln, k) :: res.2)
      | none =>
        let res := subRefScan m tbl ln rest
        (c :: res.1, res.2)
    else
      let res := subRefScan m tbl ln rest
      (c :: res.1, res.2)
termination_by s => s.length
decreasing_by
  all_goals simp only [List.length_cons]
  all_goals first
    | exact Nat.lt_succ_of_le (tryRef_len h)
    | exact Nat.lt_succ_self _

/-- The whole reference `re.sub` over one line: the `(?<!^)`
lookbehind excludes position 0, so the first character always passes
through verbatim and scanning starts at position 1. -/
def subRefLine (m : List (Str × Str)) (tbl : Bool) (ln : Nat) :
    Str → Str × List (Nat × Str)
  | [] => ([], [])
  | c :: rest =>
    let res := subRefScan m tbl ln rest
    (c :: res.1, res.2)

/-- One iteration of the `replace` loop: advance the line counter,
detect a table row once on the original line, then run the three
`re.sub` sweeps in sequence (grouped declarations, global
declarations, references), each over the previous sweep's output. -/
def replaceLine (st : RegSt) (line : Str) : RegSt × Str × List (Nat × Str) :=
  let st' := { st with line_num := st.line_num + 1 }
  let tbl := insideTable line
  let l1 := subGrouped st'.label_map tbl line
  let l2 := subGlobal st'.label_map tbl l1
  let res := subRefLine st'.label_map tbl st'.line_num l2
  (st', res.1, res.2)

/-- The `replace` loop over all lines: returns the final state, the
output lines, and the accumulated unresolved-reference records. -/
def replaceLines (st : RegSt) : List Str → RegSt × List Str × List (Nat × Str)
  | [] => (st, [], [])
  | l :: ls =>
    let r1 := replaceLine st l
    let r2 := replaceLines r1.1 ls
    (r2.1, r1.2.1 :: r2.2.1, r1.2.2 ++ r2.2.2)

/-- The header of the `UndefinedReferenceError` message. -/
def msgHeader (n : Nat) : Str :=
  "\nSummary: ".data ++ natStr n ++ " undefined references found!\n".data

/-- One line of the `UndefinedReferenceError` message. -/
def offenderLine (p : Nat × Str) : Str :=
  "  - Undefined reference '".data ++ p.2 ++ "' on line ".data ++ natStr p.1 ++ ['\n']

/-- The full `UndefinedReferenceError` message, built exactly as the
code does: header first, then one appended line per recorded pair. -/
def errorMessage (miss : List (Nat × Str)) : Str :=
  miss.foldl (fun acc p => acc ++ offenderLine p) (msgHeader miss.length)

/-- `MarkdownProcessor.replace`: process every line, then raise
`UndefinedReferenceError` iff any unresolved reference was recorded,
otherwise return the transformed lines. -/
def replaceRun (st : RegSt) (lines : List Str) : RegSt × Except Str (List Str) :=
  let r := replaceLines st lines
  (r.1, if r.2.2 = [] then Except.ok r.2.1 else Except.error (errorMessage r.2.2))

/-- The unresolved-reference records accumulated by the substitution
pass over `lines`, starting from `st`. -/
def missingOf (st : RegSt) (lines : List Str) : List (Nat × Str) :=
  (replaceLines st lines).2.2

/-- The output lines computed by the substitution pass. -/
def outputOf (st : RegSt) (lines : List Str) : List Str :=
  (replaceLines st lines).2.1

/-- `MarkdownProcessor.process_markdown`: collection pass over the
lines, then the substitution pass over the same, unchanged lines. -/
def process_markdown (st : RegSt) (lines : List Str) : RegSt × Except Str (List Str) :=
  replaceRun (collect_labels st lines) lines

/-- A notebook cell: a markdown cell carries its extracted line
sequence, any other cell is opaque to the processor. -/
inductive Cell where
  | markdown (lines : List Str)
  | other
deriving Repr, DecidableEq

/-- The first loop of `process_notebook`: collect labels from every
markdown cell, in document order, threading one shared registry. -/
def collectCells (st : RegSt) : List Cell → RegSt
  | [] => st
  | Cell.markdown ls :: cs => collectCells (collect_labels st ls) cs
  | Cell.other :: cs => collectCells st cs

/-- The second loop of `process_notebook`: substitute in every
markdown cell in order; an `UndefinedReferenceError` raised in one
cell aborts the remaining cells (the state reached so far is kept). -/
def replaceCells (st : RegSt) : List Cell → RegSt × Except Str (List Cell)
  | [] => (st, Except.ok [])
  | Cell.markdown ls :: cs =>
    match replaceRun st ls with
    | (st1, Except.error e) => (st1, Except.error e)
    | (st1, Except.ok outs) =>
      match replaceCells st1 cs with
      | (st2, Except.error e) => (st2, Except.error e)
      | (st2, Except.ok rest) => (st2, Except.ok (Cell.markdown outs :: rest))
  | Cell.other :: cs =>
    match replaceCells st cs with
    | (st2, Except.error e) => (st2, Except.error e)
    | (st2, Except.ok rest) => (st2, Except.ok (Cell.other :: rest))

/-- `process_notebook` of `src/mdxrp/processor.py`: a fresh processor,
a collection pass over all markdown cells, then a substitution pass
over all markdown cells. -/
def processNotebook (cells : List Cell) : RegSt × Except Str (List Cell) :=
  replaceCells (collectCells resetState cells) cells

/-- The concatenation of the markdown cells' line sequences, in
document order. -/
def mdLines : List Cell → List Str
  | [] => []
  | Cell.markdown ls :: cs => ls ++ mdLines cs
  | Cell.other :: cs => mdLines cs

theorem groupedTokens_eq (c : Char) (rest : Str) :
    groupedTokens (c :: rest) =
      (if c = '@' then
        match tryGrouped rest with
        | some (g, l, r) => (g, l) :: groupedTokens r
        | none => groupedTokens rest
      else groupedTokens rest) := by
  by_cases hc : c = '@'
  · subst hc
    simp only [groupedTokens, reduceIte]
    split
    next g' l' r' heq => rw [heq]
    next heq => rw [heq]
  · simp only [groupedTokens, if_neg hc]

theorem groupedTokens_nil : groupedTokens [] = [] := by
  simp [groupedTokens]

theorem globalCollectTokens_eq (c : Char) (rest : Str) :
    globalCollectTokens (c :: rest) =
      (if c = '@' then
        match tryGlobalCollect rest with
        | some (w, r) => w :: globalCollectTokens r
        | none => globalCollectTokens rest
      else globalCollectTokens rest) := by
  by_cases hc : c = '@'
  · subst hc
    simp only [globalCollectTokens, reduceIte]
    split
    next w' r' heq => rw [heq]
    next heq => rw [heq]
  · simp only [globalCollectTokens, if_neg hc]

theorem globalCollectTokens_nil : globalCollectTokens [] = [] := by
  simp [globalCollectTokens]

theorem subGrouped_eq (m : List (Str × Str)) (tbl : Bool) (c : Char) (rest : Str) :
    subGrouped m tbl (c :: rest) =
      (if c = '@' then
        match tryGrouped rest with
        | some (g, l, r) =>
          (if tbl then ljust ((alookup (gkey g l) m).getD ('@' :: gkey g l)) ('@' :: gkey g l).length
           else (alookup (gkey g l) m).getD ('@' :: gkey g l)) ++ subGrouped m tbl r
        | none => c :: subGrouped m tbl rest
      else c :: subGrouped m tbl rest) := by
  by_cases hc : c = '@'
  · subst hc
    simp only [subGrouped, reduceIte]
    split
    next g' l' r' heq => rw [heq]
    next heq => rw [heq]
  · simp only [subGrouped, if_neg hc]

theorem subGrouped_nil (m : List (Str × Str)) (tbl : Bool) : subGrouped m tbl [] = [] := by
  simp [subGrouped]

theorem subGlobal_eq (m : List (Str × Str)) (tbl : Bool) (c : Char) (rest : Str) :
    subGlobal m tbl (c :: rest) =
      (if c = '@' then
        match tryGlobal rest with
        | some (w, r) =>
          (if tbl then ljust ((alookup w m).getD ('@' :: w)) ('@' :: w).length
           else (alookup w m).getD ('@' :: w)) ++ subGlobal m tbl r
        | none => c :: subGlobal m tbl rest
      else c :: subGlobal m tbl rest) := by
  by_cases hc : c = '@'
  · subst hc
    simp only [subGlobal, reduceIte]
    split
    next w' r' heq => rw [heq]
    next heq => rw [heq]
  · simp only [subGlobal, if_neg hc]

theorem subGlobal_nil (m : List (Str × Str)) (tbl : Bool) : subGlobal m tbl [] = [] := by
  simp [subGlobal]

theorem subRefScan_eq (m : List (Str × Str)) (tbl : Bool) (ln : Nat) (c : Char) (rest : Str) :
    subRefScan m tbl ln (c :: rest) =
      (if c = '#' then
        match tryRef rest with
        | some (k, r) =>
          match alookup k m with
          | some num =>
            ((if tbl then ljust num (1 + k.length) else num) ++ (subRefScan m tbl ln r).1,
             (subRefScan m tbl ln r).2)
          | none =>
            ('#' :: (k ++ (subRefScan m tbl ln r).1), (ln, k) :: (subRefScan m tbl ln r).2)
        | none => (c :: (subRefScan m tbl ln rest).1, (subRefScan m tbl ln rest).2)
      else (c :: (subRefScan m tbl ln rest).1, (subRefScan m tbl ln rest).2)) := by
  by_cases hc : c = '#'
  · subst hc
    simp only [subRefScan, reduceIte]
    split
    next k' r' heq => rw [heq]
    next heq => rw [heq]
  · simp only [subRefScan, if_neg hc]

theorem subRefScan_nil (m : List (Str × Str)) (tbl : Bool) (ln : Nat) :
    subRefScan m tbl ln [] = ([], []) := by
  simp [subRefScan]

theorem subRefLine_nil (m : List (Str × Str)) (tbl : Bool) (ln : Nat) :
    subRefLine m tbl ln [] = ([], []) := rfl

theorem subRefLine_cons (m : List (Str × Str)) (tbl : Bool) (ln : Nat) (c : Char) (rest : Str) :
    subRefLine m tbl ln (c :: rest) =
      (c :: (subRefScan m tbl ln rest).1, (subRefScan m tbl ln rest).2) := rfl

theorem alookup_append (k : Str) (m m' : List (Str × α)) :
    alookup k (m ++ m') =
      match alookup k m with
      | some v => some v
      | none => alookup k m' := by
  induction m with
  | nil => simp [alookup]
  | cons p rest ih =>
    obtain ⟨k', v⟩ := p
    by_cases hk : k' = k
    · simp [alookup, hk]
    · simp [alookup, hk, ih]

theorem alookup_setCounter_self (g : Str) (n : Nat) (cs : List (Str × Nat)) :
    alookup g (setCounter g n cs) = some n := by
  induction cs with
  | nil => simp [setCounter, alookup]
  | cons p rest ih =>
    obtain ⟨g', m⟩ := p
    by_cases hg : g' = g
    · simp [setCounter, hg, alookup]
    · simp [setCounter, hg, alookup, ih]

theorem alookup_setCounter_ne {g' g : Str} (h : g' ≠ g) (n : Nat) (cs : List (Str × Nat)) :
    alookup g' (setCounter g n cs) = alookup g' cs := by
  induction cs with
  | nil => simp [setCounter, alookup, Ne.symm h]
  | cons p rest ih =>
    obtain ⟨g'', m⟩ := p
    by_cases hg : g'' = g
    · subst hg
      simp [setCounter, alookup, Ne.symm h]
    · simp [setCounter, hg, alookup, ih]

theorem declareGrouped_line_num (st : RegSt) (g l : Str) :
    (declareGrouped st g l).line_num = st.line_num := by
  unfold declareGrouped
  split <;> rfl

theorem declareGlobal_line_num (st : RegSt) (l : Str) :
    (declareGlobal st l).line_num = st.line_num := by
  unfold declareGlobal
  split <;> rfl

theorem declareGrouped_global_counter (st : RegSt) (g l : Str) :
    (declareGrouped st g l).global_counter = st.global_counter := by
  unfold declareGrouped
  split <;> rfl

theorem declareGlobal_group_counters (st : RegSt) (l : Str) :
    (declareGlobal st l).group_counters = st.group_counters := by
  unfold declareGlobal
  split <;> rfl

theorem declareGrouped_map_ext (st : RegSt) (g l : Str) :
    ∃ e, (declareGrouped st g l).label_map = st.label_map ++ e := by
  unfold declareGrouped
  split
  · exact ⟨[], by simp⟩
  · exact ⟨_, rfl⟩

theorem declareGlobal_map_ext (st : RegSt) (l : Str) :
    ∃ e, (declareGlobal st l).label_map = st.label_map ++ e := by
  unfold declareGlobal
  split
  · exact ⟨[], by simp⟩
  · exact ⟨_, rfl⟩

theorem foldl_declareGrouped_line_num (ts : List (Str × Str)) :
    ∀ st : RegSt, (ts.foldl (fun s p => declareGrouped s p.1 p.2) st).line_num = st.line_num := by
  induction ts with
  | nil => intro st; rfl
  | cons p rest ih =>
    intro st
    simp only [List.foldl_cons]
    rw [ih, declareGrouped_line_num]

theorem foldl_declareGlobal_line_num (ts : List Str) :
    ∀ st : RegSt, (ts.foldl declareGlobal st).line_num = st.line_num := by
  induction ts with
  | nil => intro st; rfl
  | cons w rest ih =>
    intro st
    simp only [List.foldl_cons]
    rw [ih, declareGlobal_line_num]

theorem collectLine_line_num (st : RegSt) (line : Str) :
    (collectLine st line).line_num = st.line_num := by
  unfold collectLine
  rw [foldl_declareGlobal_line_num, foldl_declareGrouped_line_num]

theorem collect_labels_line_num (lines : List Str) :
    ∀ st : RegSt, (collect_labels st lines).line_num = st.line_num := by
  induction lines with
  | nil => intro st; rfl
  | cons l ls ih =>
    intro st
    unfold collect_labels at ih ⊢
    simp only [List.foldl_cons]
    rw [ih, collectLine_line_num]

theorem foldl_declareGrouped_map_ext (ts : List (Str × Str)) :
    ∀ st : RegSt, ∃ e,
      (ts.foldl (fun s p => declareGrouped s p.1 p.2) st).label_map = st.label_map ++ e := by
  induction ts with
  | nil => intro st; exact ⟨[], by simp⟩
  | cons p rest ih =>
    intro st
    simp only [List.foldl_cons]
    obtain ⟨e1, he1⟩ := declareGrouped_map_ext st p.1 p.2
    obtain ⟨e2, he2⟩ := ih (declareGrouped st p.1 p.2)
    exact ⟨e1 ++ e2, by rw [he2, he1, List.append_assoc]⟩

theorem foldl_declareGlobal_map_ext (ts : List Str) :
    ∀ st : RegSt, ∃ e, (ts.foldl declareGlobal st).label_map = st.label_map ++ e := by
  induction ts with
  | nil => intro st; exact ⟨[], by simp⟩
  | cons w rest ih =>
    intro st
    simp only [List.foldl_cons]
    obtain ⟨e1, he1⟩ := declareGlobal_map_ext st w
    obtain ⟨e2, he2⟩ := ih (declareGlobal st w)
    exact ⟨e1 ++ e2, by rw [he2, he1, List.append_assoc]⟩

theorem collect_labels_map_ext (lines : List Str) :
    ∀ st : RegSt, ∃ e, (collect_labels st lines).label_map = st.label_map ++ e := by
  induction lines with
  | nil => intro st; exact ⟨[], by simp [collect_labels]⟩
  | cons l ls ih =>
    intro st
    unfold collect_labels at ih ⊢
    simp only [List.foldl_cons]
    obtain ⟨e1, he1⟩ : ∃ e, (collectLine st l).label_map = st.label_map ++ e := by
      unfold collectLine
      obtain ⟨e1, he1⟩ := foldl_declareGrouped_map_ext (groupedTokens l) st
      obtain ⟨e2, he2⟩ :=
        foldl_declareGlobal_map_ext (globalCollectTokens l)
          ((groupedTokens l).foldl (fun s p => declareGrouped s p.1 p.2) st)
      exact ⟨e1 ++ e2, by rw [he2, he1, List.append_assoc]⟩
    obtain ⟨e2, he2⟩ := ih (collectLine st l)
    exact ⟨e1 ++ e2, by rw [he2, he1, List.append_assoc]⟩

theorem replaceLines_fst (lines : List Str) :
    ∀ st : RegSt, (replaceLines st lines).1 =
      { st with line_num := st.line_num + lines.length } := by
  induction lines with
  | nil => intro st; simp [replaceLines]
  | cons l ls ih =>
    intro st
    simp only [replaceLines, replaceLine, ih, List.length_cons]
    congr 1
    omega

theorem subRefScan_miss_ln (m : List (Str × Str)) (tbl : Bool) (ln : Nat) (s : Str) :
    ∀ p ∈ (subRefScan m tbl ln s).2, p.1 = ln := by
  refine subRefScan.induct m tbl ln
    (fun s => ∀ p ∈ (subRefScan m tbl ln s).2, p.1 = ln) ?_ ?_ ?_ ?_ ?_ s
  · simp [subRefScan_nil]
  · intro rest w r htr num hla ih
    simp only [subRefScan_eq, reduceIte, htr, hla]
    exact ih
  · intro rest w r htr hla ih
    simp only [subRefScan_eq, reduceIte, htr, hla]
    intro p hp
    rcases List.mem_cons.mp hp with h1 | h1
    · rw [h1]
    · exact ih p h1
  · intro rest htr ih
    simp only [subRefScan_eq, reduceIte, htr]
    exact ih
  · intro c rest hc ih
    simp only [subRefScan_eq, if_neg hc]
    exact ih

theorem subRefLine_miss_ln (m : List (Str × Str)) (tbl : Bool) (ln : Nat) (s : Str) :
    ∀ p ∈ (subRefLine m tbl ln s).2, p.1 = ln := by
  cases s with
  | nil => simp [subRefLine_nil]
  | cons c rest =>
    simp only [subRefLine_cons]
    exact subRefScan_miss_ln m tbl ln rest

theorem subRefScan_empty_map (tbl : Bool) (ln : Nat) (s : Str) :
    (subRefScan ([] : List (Str × Str)) tbl ln s).1 = s := by
  refine subRefScan.induct [] tbl ln
    (fun s => (subRefScan ([] : List (Str × Str)) tbl ln s).1 = s) ?_ ?_ ?_ ?_ ?_ s
  · simp [subRefScan_nil]
  · intro rest w r htr num hla ih
    simp [alookup] at hla
  · intro rest w r htr hla ih
    obtain ⟨hs, -⟩ := tryRef_decomp htr
    simp only [subRefScan_eq, reduceIte, htr, hla, ih]
    rw [hs]
  · intro rest htr ih
    simp only [subRefScan_eq, reduceIte, htr]
    rw [ih]
  · intro c rest hc ih
    simp only [subRefScan_eq, if_neg hc]
    rw [ih]

theorem subRefLine_empty_map (tbl : Bool) (ln : Nat) (s : Str) :
    (subRefLine ([] : List (Str × Str)) tbl ln s).1 = s := by
  cases s with
  | nil => simp [subRefLine_nil]
  | cons c rest =>
    simp only [subRefLine_cons]
    rw [subRefScan_empty_map]

theorem replaceLines_out_length (lines : List Str) :
    ∀ st : RegSt, (replaceLines st lines).2.1.length = lines.length := by
  induction lines with
  | nil => intro st; simp [replaceLines]
  | cons l ls ih =>
    intro st
    simp only [replaceLines, List.length_cons]
    rw [ih]

theorem replaceLines_miss_bounds (lines : List Str) :
    ∀ st : RegSt, ∀ p ∈ (replaceLines st lines).2.2,
      st.line_num + 1 ≤ p.1 ∧ p.1 ≤ st.line_num + lines.length := by
  induction lines with
  | nil => intro st; simp [replaceLines]
  | cons l ls ih =>
    intro st p hp
    simp only [replaceLines, List.mem_append] at hp
    rcases hp with h1 | h1
    · have := subRefLine_miss_ln
        ({ st with line_num := st.line_num + 1 }).label_map (insideTable l)
        (st.line_num + 1) (subGlobal ({ st with line_num := st.line_num + 1 }).label_map
          (insideTable l) (subGrouped ({ st with line_num := st.line_num + 1 }).label_map
            (insideTable l) l)) p
      have hln : p.1 = st.line_num + 1 := by
        apply this
        simpa [replaceLine] using h1
      simp only [List.length_cons]
      omega
    · have hbd := ih (replaceLine st l).1 p h1
      have hfst : (replaceLine st l).1 = { st with line_num := st.line_num + 1 } := rfl
      rw [hfst] at hbd
      simp only [List.length_cons]
      simp only at hbd
      omega

theorem foldl_offender_append (xs : List (Nat × Str)) :
    ∀ pre : Str, xs.foldl (fun acc p => acc ++ offenderLine p) pre =
      pre ++ xs.flatMap offenderLine := by
  induction xs with
  | nil => intro pre; simp
  | cons x rest ih =>
    intro pre
    simp only [List.foldl_cons, List.flatMap_cons]
    rw [ih, List.append_assoc]

theorem errorMessage_eq (miss : List (Nat × Str)) :
    errorMessage miss = msgHeader miss.length ++ miss.flatMap offenderLine := by
  unfold errorMessage
  rw [foldl_offender_append]

theorem replaceRun_fst (st : RegSt) (lines : List Str) :
    (replaceRun st lines).1 = (replaceLines st lines).1 := rfl

theorem collectCells_eq_mdLines (cells : List Cell) :
    ∀ st : RegSt, collectCells st cells = collect_labels st (mdLines cells) := by
  induction cells with
  | nil => intro st; simp [collectCells, mdLines, collect_labels]
  | cons c cs ih =>
    intro st
    cases c with
    | markdown ls =>
      simp only [collectCells, mdLines]
      rw [ih]
      unfold collect_labels
      rw [List.foldl_append]
    | other =>
      simp only [collectCells, mdLines]
      exact ih st

theorem replaceCells_ok_line_num (cells : List Cell) :
    ∀ (st : RegSt) (out : List Cell), (replaceCells st cells).2 = Except.ok out →
      (replaceCells st cells).1.line_num = st.line_num + (mdLines cells).length := by
  induction cells with
  | nil => intro st out h; simp [replaceCells, mdLines]
  | cons c cs ih =>
    intro st out h
    cases c with
    | markdown ls =>
      rcases hrr : replaceRun st ls with ⟨st1, e⟩
      have hst1 : st1 = { st with line_num := st.line_num + ls.length } := by
        have : st1 = (replaceRun st ls).1 := by rw [hrr]
        rw [this, replaceRun_fst, replaceLines_fst]
      cases e with
      | error msg =>
        simp only [replaceCells, hrr] at h
        exact Except.noConfusion h
      | ok outs =>
        rcases hrc : replaceCells st1 cs with ⟨st2, e2⟩
        cases e2 with
        | error msg =>
          simp only [replaceCells, hrr, hrc] at h
          exact Except.noConfusion h
        | ok rest =>
          have h2 : (replaceCells st1 cs).2 = Except.ok rest := by rw [hrc]
          have := ih st1 rest h2
          rw [hrc] at this
          simp only [replaceCells, hrr, hrc, mdLines, List.length_append]
          simp only at this
          rw [this, hst1]
          simp only
          omega
    | other =>
      rcases hrc : replaceCells st cs with ⟨st2, e2⟩
      cases e2 with
      | error msg =>
        simp only [replaceCells, hrc] at h
        exact Except.noConfusion h
      | ok rest =>
        have h2 : (replaceCells st cs).2 = Except.ok rest := by rw [hrc]
        have := ih st rest h2
        rw [hrc] at this
        simp only [replaceCells, hrc, mdLines]
        exact this

theorem declareGrouped_present {st : RegSt} {g l n : Str}
    (h : alookup (gkey g l) st.label_map = some n) : declareGrouped st g l = st := by
  simp [declareGrouped, h]

theorem declareGlobal_present {st : RegSt} {l n : Str}
    (h : alookup l st.label_map = some n) : declareGlobal st l = st := by
  simp [declareGlobal, h]

theorem declareGrouped_idem (st : RegSt) (g l : Str) :
    declareGrouped (declareGrouped st g l) g l = declareGrouped st g l := by
  by_cases h : (alookup (gkey g l) st.label_map).isSome = true
  · have h1 : declareGrouped st g l = st := by simp [declareGrouped, h]
    rw [h1]
    exact h1
  · set st' := declareGrouped st g l with hst'
    have hmap : st'.label_map =
      st.label_map ++ [(gkey g l, natStr ((alookup g st.group_counters).getD 1))] := by
      rw [hst']
      simp [declareGrouped, h]
    have h2 : (alookup (gkey g l) st'.label_map).isSome = true := by
      rw [hmap, alookup_append]
      cases halo : alookup (gkey g l) st.label_map with
      | some v => simp
      | none => simp [alookup]
    unfold declareGrouped
    rw [if_pos h2]

theorem declareGlobal_idem (st : RegSt) (l : Str) :
    declareGlobal (declareGlobal st l) l = declareGlobal st l := by
  by_cases h : (alookup l st.label_map).isSome = true
  · have h1 : declareGlobal st l = st := by simp [declareGlobal, h]
    rw [h1]
    exact h1
  · set st' := declareGlobal st l with hst'
    have hmap : st'.label_map = st.label_map ++ [(l, natStr st.global_counter)] := by
      rw [hst']
      simp [declareGlobal, h]
    have h2 : (alookup l st'.label_map).isSome = true := by
      rw [hmap, alookup_append]
      cases halo : alookup l st.label_map with
      | some v => simp
      | none => simp [alookup]
    unfold declareGlobal
    rw [if_pos h2]

theorem gkey_ne_word {g l tok : Str} (h : ∀ c ∈ tok, isWordChar c = true) :
    gkey g l ≠ tok := by
  intro heq
  have hm : ':' ∈ gkey g l := by simp [gkey]
  rw [heq] at hm
  have := h ':' hm
  simp [isWordChar] at this

/-- C4: declaration is idempotent.  Declaring a key already present in
the registry is a no-op: the stored number is kept, nothing is
inserted, and no counter advances; in particular declaring the same
key twice (grouped or global) equals declaring it once, so both
declarations resolve to the same number. -/
theorem c4_idempotent_declare :
    ∀ (st : RegSt) (g l tok n : Str),
      (alookup (gkey g l) st.label_map = some n →
        declareGrouped st g l = st ∧
        alookup (gkey g l) (declareGrouped st g l).label_map = some n) ∧
      (alookup tok st.label_map = some n → declareGlobal st tok = st) ∧
      declareGrouped (declareGrouped st g l) g l = declareGrouped st g l ∧
      declareGlobal (declareGlobal st tok) tok = declareGlobal st tok := by
  intro st g l tok n
  refine ⟨fun h => ⟨declareGrouped_present h, ?_⟩,
    fun h => declareGlobal_present h,
    declareGrouped_idem st g l, declareGlobal_idem st tok⟩
  rw [declareGrouped_present h]
  exact h

theorem c4_idempotent_declare_witness :
    declareGrouped ⟨[(gkey ['a'] ['x'], ['1'])], [(['a'], 2)], 1, 0⟩ ['a'] ['x'] =
      ⟨[(gkey ['a'] ['x'], ['1'])], [(['a'], 2)], 1, 0⟩ ∧
    declareGlobal ⟨[(['y'], ['1'])], [], 2, 0⟩ ['y'] = ⟨[(['y'], ['1'])], [], 2, 0⟩ := by
  constructor
  · exact ((c4_idempotent_declare ⟨[(gkey ['a'] ['x'], ['1'])], [(['a'], 2)], 1, 0⟩
      ['a'] ['x'] ['y'] ['1']).1 (by simp +decide [alookup, gkey])).1
  · exact (c4_idempotent_declare ⟨[(['y'], ['1'])], [], 2, 0⟩
      ['a'] ['x'] ['y'] ['1']).2.1 (by simp +decide [alookup])

/-- C5: global and grouped scopes are disjoint namespaces with
independent counters.  A grouped key is never equal to a bare word
token; declaring a grouped label never touches the global counter,
declaring a bare label never touches any group counter, declaring in
group `g` leaves every other group's counter unchanged; and on a
fresh registry `@g:tok` and `@tok` create two distinct entries, both
numbered `1` by their own counters. -/
theorem c5_scope_independence :
    ∀ (st : RegSt) (g l tok : Str),
      ((∀ c ∈ tok, isWordChar c = true) → gkey g l ≠ tok) ∧
      (declareGrouped st g l).global_counter = st.global_counter ∧
      (declareGlobal st tok).group_counters = st.group_counters ∧
      (∀ g', g' ≠ g →
        alookup g' (declareGrouped st g l).group_counters = alookup g' st.group_counters) ∧
      ((∀ c ∈ tok, isWordChar c = true) →
        declareGlobal (declareGrouped resetState g l) tok =
          ⟨[(gkey g l, natStr 1), (tok, natStr 1)], [(g, 2)], 2, 0⟩) := by
  intro st g l tok
  refine ⟨gkey_ne_word, declareGrouped_global_counter st g l,
    declareGlobal_group_counters st tok, ?_, ?_⟩
  · intro g' hg'
    unfold declareGrouped
    split
    · rfl
    · exact alookup_setCounter_ne hg' _ _
  · intro hw
    have hne : gkey g l ≠ tok := gkey_ne_word hw
    simp [declareGrouped, declareGlobal, resetState, alookup, setCounter, hne]

theorem c5_scope_independence_witness :
    gkey ['g'] ['a', 'l', 'p', 'h', 'a'] ≠ ['a', 'l', 'p', 'h', 'a'] ∧
    alookup ['h'] (declareGrouped resetState ['g'] ['a', 'l', 'p', 'h', 'a']).group_counters =
      alookup ['h'] resetState.group_counters ∧
    declareGlobal (declareGrouped resetState ['g'] ['a', 'l', 'p', 'h', 'a'])
        ['a', 'l', 'p', 'h', 'a'] =
      ⟨[(gkey ['g'] ['a', 'l', 'p', 'h', 'a'], natStr 1), (['a', 'l', 'p', 'h', 'a'], natStr 1)],
       [(['g'], 2)], 2, 0⟩ := by
  refine ⟨?_, ?_, ?_⟩
  · exact (c5_scope_independence resetState ['g'] ['a', 'l', 'p', 'h', 'a']
      ['a', 'l', 'p', 'h', 'a']).1 (by decide)
  · exact (c5_scope_independence resetState ['g'] ['a', 'l', 'p', 'h', 'a']
      ['a', 'l', 'p', 'h', 'a']).2.2.2.1 ['h'] (by decide)
  · exact (c5_scope_independence resetState ['g'] ['a', 'l', 'p', 'h', 'a']
      ['a', 'l', 'p', 'h', 'a']).2.2.2.2 (by decide)

/-- C6: the collection pass does not alter the lines.  It returns only
a registry state; `process_markdown` feeds the very same input lines
to the substitution pass; and collection mutates only the registry
fields (it extends the label map and never touches the line counter). -/
theorem c6_collect_preserves_lines :
    ∀ (st : RegSt) (lines : List Str),
      process_markdown st lines = replaceRun (collect_labels st lines) lines ∧
      (collect_labels st lines).line_num = st.line_num ∧
      ∃ e, (collect_labels st lines).label_map = st.label_map ++ e := by
  intro st lines
  exact ⟨rfl, collect_labels_line_num lines st, collect_labels_map_ext lines st⟩

/-- C8: the substitution pass never mutates the registry.  Whatever it
returns, the label map, the per-group counters, and the global counter
of the resulting state equal those of the starting state. -/
theorem c8_substitution_preserves_registry :
    ∀ (st : RegSt) (lines : List Str),
      (replaceRun st lines).1.label_map = st.label_map ∧
      (replaceRun st lines).1.group_counters = st.group_counters ∧
      (replaceRun st lines).1.global_counter = st.global_counter := by
  intro st lines
  rw [replaceRun_fst, replaceLines_fst]
  exact ⟨rfl, rfl, rfl⟩

/-- C9: the line counter is 0 on a fresh state, is never changed by
the collection pass, advances exactly once per line during the
substitution pass, every recorded unresolved-reference position lies
in the 1-based running range of the pass, and the counter is not
reset between notebook cells: after a successful notebook
substitution pass it equals the starting value plus the total number
of markdown lines across all cells. -/
theorem c9_line_counter :
    resetState.line_num = 0 ∧
    (∀ (st : RegSt) (lines : List Str), (collect_labels st lines).line_num = st.line_num) ∧
    (∀ (st : RegSt) (lines : List Str),
      (replaceLines st lines).1.line_num = st.line_num + lines.length) ∧
    (∀ (st : RegSt) (lines : List Str), ∀ p ∈ missingOf st lines,
      st.line_num + 1 ≤ p.1 ∧ p.1 ≤ st.line_num + lines.length) ∧
    (∀ (st : RegSt) (cells : List Cell) (out : List Cell),
      (replaceCells st cells).2 = Except.ok out →
      (replaceCells st cells).1.line_num = st.line_num + (mdLines cells).length) := by
  refine ⟨rfl, fun st lines => collect_labels_line_num lines st,
    fun st lines => by rw [replaceLines_fst],
    fun st lines => replaceLines_miss_bounds lines st,
    fun st cells out h => replaceCells_ok_line_num cells st out h⟩

theorem c9_missing_eval :
    missingOf resetState [[' ', '#', 'x']] = [(1, ['x'])] := by
  simp +decide [missingOf, replaceLines, replaceLine, resetState, insideTable,
    subGrouped_eq, subGrouped_nil, subGlobal_eq, subGlobal_nil,
    subRefLine_cons, subRefLine_nil, subRefScan_eq, subRefScan_nil,
    tryGrouped, tryGlobal, tryRef, List.takeWhile_cons, List.dropWhile_cons, alookup]

theorem c9_cell_eval :
    (replaceCells resetState [Cell.markdown [['a']]]).2 =
      Except.ok [Cell.markdown [['a']]] := by
  simp +decide [replaceCells, replaceRun, replaceLines, replaceLine, resetState, insideTable,
    subGrouped_eq, subGrouped_nil, subGlobal_eq, subGlobal_nil,
    subRefLine_cons, subRefLine_nil, subRefScan_eq, subRefScan_nil,
    tryGrouped, tryGlobal, tryRef, List.takeWhile_cons, List.dropWhile_cons, alookup]

theorem c9_line_counter_witness :
    (resetState.line_num + 1 ≤ 1 ∧ 1 ≤ resetState.line_num + 1) ∧
    (replaceCells resetState [Cell.markdown [['a']]]).1.line_num =
      resetState.line_num + (mdLines [Cell.markdown [['a']]]).length := by
  constructor
  · have := c9_line_counter.2.2.2.1 resetState [[' ', '#', 'x']] (1, ['x'])
      (by rw [c9_missing_eval]; exact List.mem_singleton.mpr rfl)
    simpa using this
  · exact c9_line_counter.2.2.2.2 resetState [Cell.markdown [['a']]]
      [Cell.markdown [['a']]] c9_cell_eval

theorem subGrouped_no_at (m : List (Str × Str)) (tbl : Bool) (s : Str) (h : '@' ∉ s) :
    subGrouped m tbl s = s := by
  induction s with
  | nil => exact subGrouped_nil m tbl
  | cons c rest ih =>
    have hc : c ≠ '@' := fun hh => h (hh ▸ List.mem_cons_self c rest)
    rw [subGrouped_eq, if_neg (fun hh => hc hh)]
    rw [ih (fun hh => h (List.mem_cons_of_mem c hh))]

theorem subGlobal_no_at (m : List (Str × Str)) (tbl : Bool) (s : Str) (h : '@' ∉ s) :
    subGlobal m tbl s = s := by
  induction s with
  | nil => exact subGlobal_nil m tbl
  | cons c rest ih =>
    have hc : c ≠ '@' := fun hh => h (hh ▸ List.mem_cons_self c rest)
    rw [subGlobal_eq, if_neg (fun hh => hc hh)]
    rw [ih (fun hh => h (List.mem_cons_of_mem c hh))]

theorem subRefScan_no_hash (m : List (Str × Str)) (tbl : Bool) (ln : Nat) (s : Str)
    (h : '#' ∉ s) : subRefScan m tbl ln s = (s, []) := by
  induction s with
  | nil => exact subRefScan_nil m tbl ln
  | cons c rest ih =>
    have hc : c ≠ '#' := fun hh => h (hh ▸ List.mem_cons_self c rest)
    rw [subRefScan_eq, if_neg (fun hh => hc hh)]
    rw [ih (fun hh => h (List.mem_cons_of_mem c hh))]

theorem insideTable_hash (rest : Str) : insideTable ('#' :: rest) = false := by
  simp +decide [insideTable, List.dropWhile_cons]

/-- C7: start-of-line heading exclusion.  A `#` that is the first
character of a line is never treated as a reference: on a line
`#someLabel` (the `#` followed by one word token) nothing is
substituted and nothing is recorded as unresolved, whatever the
registry holds; and in general the leading `#` passes through
verbatim while reference scanning covers only the rest of the line. -/
theorem c7_heading_exclusion :
    ∀ (st : RegSt) (w rest : Str),
      ((∀ c ∈ w, isWordChar c = true) →
        replaceLine st ('#' :: w) = ({ st with line_num := st.line_num + 1 }, '#' :: w, [])) ∧
      (replaceLine st ('#' :: rest)).2.1 =
        '#' :: (subRefScan st.label_map false (st.line_num + 1)
          (subGlobal st.label_map false (subGrouped st.label_map false rest))).1 ∧
      (replaceLine st ('#' :: rest)).2.2 =
        (subRefScan st.label_map false (st.line_num + 1)
          (subGlobal st.label_map false (subGrouped st.label_map false rest))).2 := by
  intro st w rest
  have hpipe : ∀ x : Str, replaceLine st ('#' :: x) =
      ({ st with line_num := st.line_num + 1 },
       '#' :: (subRefScan st.label_map false (st.line_num + 1)
         (subGlobal st.label_map false (subGrouped st.label_map false x))).1,
       (subRefScan st.label_map false (st.line_num + 1)
         (subGlobal st.label_map false (subGrouped st.label_map false x))).2) := by
    intro x
    unfold replaceLine
    simp +decide [insideTable_hash, subGrouped_eq, subGlobal_eq, subRefLine_cons]
  refine ⟨?_, (hpipe rest ▸ rfl), (hpipe rest ▸ rfl)⟩
  intro hw
  have hna : '@' ∉ w := fun hm => by simpa [isWordChar] using hw '@' hm
  have hnh : '#' ∉ w := fun hm => by simpa [isWordChar] using hw '#' hm
  rw [hpipe w, subGrouped_no_at _ _ _ hna, subGlobal_no_at _ _ _ hna,
    subRefScan_no_hash _ _ _ _ hnh]

theorem c7_heading_exclusion_witness :
    replaceLine ⟨[(['s', 'o', 'm', 'e', 'L', 'a', 'b', 'e', 'l'], ['7'])], [], 2, 5⟩
        ['#', 's', 'o', 'm', 'e', 'L', 'a', 'b', 'e', 'l'] =
      (⟨[(['s', 'o', 'm', 'e', 'L', 'a', 'b', 'e', 'l'], ['7'])], [], 2, 6⟩,
       ['#', 's', 'o', 'm', 'e', 'L', 'a', 'b', 'e', 'l'], []) := by
  exact (c7_heading_exclusion ⟨[(['s', 'o', 'm', 'e', 'L', 'a', 'b', 'e', 'l'], ['7'])], [], 2, 5⟩
    ['s', 'o', 'm', 'e', 'L', 'a', 'b', 'e', 'l'] []).1 (by decide)

/-- C2: the substitution pass fails iff unresolved references were
accumulated.  `replace` raises the undefined-reference error exactly
when the accumulated record list is non-empty after all lines are
processed (the output is still computed for every line, so the error
is raised once at the end); the error message carries the total count
followed by one entry per recorded `(line, key)` pair, in order; on
failure no output lines are returned; and against an empty registry
(where every reference is unresolved) every line is left verbatim. -/
theorem c2_undefined_ref_error :
    ∀ (st : RegSt) (lines : List Str),
      ((∃ e, (replaceRun st lines).2 = Except.error e) ↔ missingOf st lines ≠ []) ∧
      (missingOf st lines ≠ [] →
        (replaceRun st lines).2 = Except.error
          (msgHeader (missingOf st lines).length ++
            (missingOf st lines).flatMap offenderLine)) ∧
      (missingOf st lines = [] → (replaceRun st lines).2 = Except.ok (outputOf st lines)) ∧
      (outputOf st lines).length = lines.length ∧
      (∀ (tbl : Bool) (ln : Nat) (s : Str),
        (subRefLine ([] : List (Str × Str)) tbl ln s).1 = s) ∧
      (∀ (tbl : Bool) (ln : Nat) (k r s : Str),
        tryRef s = some (k, r) → alookup k st.label_map = none →
        subRefScan st.label_map tbl ln ('#' :: s) =
          ('#' :: (k ++ (subRefScan st.label_map tbl ln r).1),
           (ln, k) :: (subRefScan st.label_map tbl ln r).2)) := by
  intro st lines
  have hrun : (replaceRun st lines).2 =
      if missingOf st lines = [] then Except.ok (outputOf st lines)
      else Except.error (errorMessage (missingOf st lines)) := rfl
  refine ⟨?_, ?_, ?_, ?_, fun tbl ln s => subRefLine_empty_map tbl ln s, ?_⟩
  · constructor
    · rintro ⟨e, he⟩ hm
      rw [hrun, if_pos hm] at he
      exact Except.noConfusion he
    · intro hm
      rw [hrun, if_neg hm]
      exact ⟨_, rfl⟩
  · intro hm
    rw [hrun, if_neg hm, errorMessage_eq]
  · intro hm
    rw [hrun, if_pos hm]
  · exact replaceLines_out_length lines st
  · intro tbl ln k r s htr hla
    rw [subRefScan_eq]
    simp [htr, hla]

theorem c2_missing_empty_eval : missingOf resetState [['a']] = [] := by
  simp +decide [missingOf, replaceLines, replaceLine, resetState, insideTable,
    subGrouped_eq, subGrouped_nil, subGlobal_eq, subGlobal_nil,
    subRefLine_cons, subRefLine_nil, subRefScan_eq, subRefScan_nil,
    tryGrouped, tryGlobal, tryRef, List.takeWhile_cons, List.dropWhile_cons, alookup]

theorem c2_undefined_ref_error_witness :
    (replaceRun resetState [[' ', '#', 'x']]).2 =
      Except.error (msgHeader (missingOf resetState [[' ', '#', 'x']]).length ++
        (missingOf resetState [[' ', '#', 'x']]).flatMap offenderLine) ∧
    (replaceRun resetState [['a']]).2 = Except.ok (outputOf resetState [['a']]) := by
  constructor
  · exact (c2_undefined_ref_error resetState [[' ', '#', 'x']]).2.1
      (by rw [c9_missing_eval]; simp)
  · exact (c2_undefined_ref_error resetState [['a']]).2.2.1 c2_missing_empty_eval

theorem ljust_length {s : Str} {n : Nat} (h : s.length ≤ n) : (ljust s n).length = n := by
  simp [ljust]
  omega

theorem ljust_of_long {s : Str} {n : Nat} (h : n < s.length) : ljust s n = s := by
  simp [ljust]
  omega

/-- A registry state holding the five-digit number `12345` for the
grouped key `a:b` (as the collection pass produces once 12345 labels
of group `a` have been declared). -/
def c3st : RegSt := ⟨[(['a', ':', 'b'], ['1', '2', '3', '4', '5'])], [(['a'], 12346)], 1, 0⟩

def c3line : Str := ['|', ' ', '@', 'a', ':', 'b', ' ', '|']

def c3out : Str := ['|', ' ', '1', '2', '3', '4', '5', ' ', '|']

/-- C3 counterexample: on the table row `| @a:b |` with the registry
number `12345` for `a:b`, the substituted declaration is emitted as
the bare five-character number (`ljust` to the four-character match
width pads nothing), so the replacement's printed width is 5 while
the matched text `@a:b` is 4 characters wide, and the line's total
width grows from 8 to 9 — the claim's width equality fails. -/
theorem c3_table_padding_counterexample :
    insideTable c3line = true ∧
    alookup (gkey ['a'] ['b']) c3st.label_map = some ['1', '2', '3', '4', '5'] ∧
    (replaceLine c3st c3line).2.1 = c3out ∧
    c3out.length ≠ c3line.length := by
  refine ⟨by decide, by decide, ?_, by decide⟩
  simp +decide [replaceLine, c3st, c3line, c3out, insideTable, subGrouped_eq, subGrouped_nil,
    subGlobal_eq, subGlobal_nil, subRefLine_cons, subRefLine_nil, subRefScan_eq, subRefScan_nil,
    tryGrouped, tryGlobal, tryRef, List.takeWhile_cons, List.dropWhile_cons, alookup, gkey, ljust]

/-- C3 amended: at every match the substitution emits the registry
number left-justified in a field of the matched text's width when
inside a table (so the printed width equals the match's width
whenever the number is no wider than the match, and is the wider bare
number otherwise, since `ljust` never truncates), and emits the bare
number outside a table. -/
theorem c3_table_padding_amended :
    ∀ (m : List (Str × Str)) (tbl : Bool) (g l w k r n s : Str) (ln : Nat),
      (tryGrouped s = some (g, l, r) → alookup (gkey g l) m = some n →
        subGrouped m tbl ('@' :: s) =
          (if tbl then ljust n ('@' :: gkey g l).length else n) ++ subGrouped m tbl r) ∧
      (tryGlobal s = some (w, r) → alookup w m = some n →
        subGlobal m tbl ('@' :: s) =
          (if tbl then ljust n ('@' :: w).length else n) ++ subGlobal m tbl r) ∧
      (tryRef s = some (k, r) → alookup k m = some n →
        subRefScan m tbl ln ('#' :: s) =
          ((if tbl then ljust n ('#' :: k).length else n) ++ (subRefScan m tbl ln r).1,
           (subRefScan m tbl ln r).2)) ∧
      (n.length ≤ ('@' :: gkey g l).length →
        (ljust n ('@' :: gkey g l).length).length = ('@' :: gkey g l).length) ∧
      (('@' :: gkey g l).length < n.length → ljust n ('@' :: gkey g l).length = n) := by
  intro m tbl g l w k r n s ln
  refine ⟨?_, ?_, ?_, fun h => ljust_length h, fun h => ljust_of_long h⟩
  · intro htg hla
    rw [subGrouped_eq]
    simp [htg, hla]
  · intro htg hla
    rw [subGlobal_eq]
    simp [htg, hla]
  · intro htg hla
    rw [subRefScan_eq]
    simp [htg, hla, Nat.add_comm]

theorem c3_table_padding_amended_witness :
    (subGrouped [(gkey ['a'] ['b'], ['7'])] true ['@', 'a', ':', 'b'] =
      (if true then ljust ['7'] ('@' :: gkey ['a'] ['b']).length else ['7']) ++
        subGrouped [(gkey ['a'] ['b'], ['7'])] true []) ∧
    (subGlobal [(['w'], ['7'])] true ['@', 'w'] =
      (if true then ljust ['7'] ('@' :: ['w']).length else ['7']) ++
        subGlobal [(['w'], ['7'])] true []) ∧
    (subRefScan [(['k'], ['7'])] true 1 ['#', 'k'] =
      ((if true then ljust ['7'] ('#' :: ['k']).length else ['7']) ++
        (subRefScan [(['k'], ['7'])] true 1 []).1,
       (subRefScan [(['k'], ['7'])] true 1 []).2)) ∧
    (ljust ['7'] ('@' :: gkey ['a'] ['b']).length).length = ('@' :: gkey ['a'] ['b']).length ∧
    ljust ['1', '2', '3', '4', '5'] ('@' :: gkey ['a'] ['b']).length =
      ['1', '2', '3', '4', '5'] := by
  refine ⟨?_, ?_, ?_, ?_, ?_⟩
  · exact (c3_table_padding_amended [(gkey ['a'] ['b'], ['7'])] true ['a'] ['b'] ['w'] ['k']
      [] ['7'] ['a', ':', 'b'] 1).1 (by decide) (by decide)
  · exact (c3_table_padding_amended [(['w'], ['7'])] true ['a'] ['b'] ['w'] ['k']
      [] ['7'] ['w'] 1).2.1 (by decide) (by decide)
  · exact (c3_table_padding_amended [(['k'], ['7'])] true ['a'] ['b'] ['w'] ['k']
      [] ['7'] ['k'] 1).2.2.1 (by decide) (by decide)
  · exact (c3_table_padding_amended [] true ['a'] ['b'] ['w'] ['k']
      [] ['7'] ['k'] 1).2.2.2.1 (by decide)
  · exact (c3_table_padding_amended [] true ['a'] ['b'] ['w'] ['k']
      [] ['1', '2', '3', '4', '5'] ['k'] 1).2.2.2.2 (by decide)

/-- C1: for notebooks, collection spans every markdown cell before
substitution starts on any cell, over one shared registry:
`process_notebook` first folds the collection pass over all markdown
cells (equal to collecting over the concatenation of their line
sequences, in document order) and only then runs the substitution
pass; consequently a reference `#s:one` in cell 1 resolves to the
number `1` declared by `@s:one` in the later cell 2. -/
theorem c1_notebook_two_pass :
    (∀ (st : RegSt) (cells : List Cell),
      collectCells st cells = collect_labels st (mdLines cells)) ∧
    (∀ cells : List Cell,
      processNotebook cells = replaceCells (collectCells resetState cells) cells) ∧
    (processNotebook
      [Cell.markdown [['s', 'e', 'e', ' ', '#', 's', ':', 'o', 'n', 'e']],
       Cell.markdown [['@', 's', ':', 'o', 'n', 'e']]]).2 =
      Except.ok
        [Cell.markdown [['s', 'e', 'e', ' ', '1']],
         Cell.markdown [['1']]] := by
  refine ⟨fun st cells => collectCells_eq_mdLines cells st, fun cells => rfl, ?_⟩
  have natStr_one : natStr 1 = ['1'] := by decide
  simp +decide [processNotebook, collectCells, replaceCells, collect_labels, collectLine,
    groupedTokens_eq, groupedTokens_nil, globalCollectTokens_eq, globalCollectTokens_nil,
    tryGrouped, tryGlobal, tryGlobalCollect, tryRef, lookaheadBlocked,
    List.takeWhile_cons, List.dropWhile_cons, declareGrouped, declareGlobal,
    alookup, gkey, setCounter, natStr_one, resetState, replaceRun, replaceLines,
    replaceLine, insideTable, subGrouped_eq, subGrouped_nil, subGlobal_eq, subGlobal_nil,
    subRefLine_cons, subRefLine_nil, subRefScan_eq, subRefScan_nil, ljust]

/-- The group a registry key belongs to: a key containing a colon is
grouped (its group is everything before the first colon), a key with
no colon is a bare global label. -/
def keyGroup (k : Str) : Option Str :=
  if ':' ∈ k then some (k.takeWhile (fun c => c ≠ ':')) else none

/-- The entries of `label_map` belonging to group `g`, in insertion
(= first-declaration) order. -/
def groupEntries (g : Str) (st : RegSt) : List (Str × Str) :=
  st.label_map.filter (fun p => decide (keyGroup p.1 = some g))

/-- The bare-label entries of `label_map`, in insertion order. -/
def globalEntries (st : RegSt) : List (Str × Str) :=
  st.label_map.filter (fun p => decide (keyGroup p.1 = none))

/-- The decimal strings `"1"`, ..., `"k"`. -/
def natSeq (k : Nat) : List Str :=
  (List.range k).map (fun i => natStr (i + 1))

/-- The next number group `g` would assign (the code treats an absent
counter as 1). -/
def nextGroupNum (g : Str) (st : RegSt) : Nat :=
  (alookup g st.group_counters).getD 1

/-- Counter-contiguity invariant: in every group the stored numbers
are exactly `"1"` through `"k"` in first-declaration order and the
group's next number is `k + 1`; likewise for the bare labels and the
global counter. -/
def RegInv (st : RegSt) : Prop :=
  (∀ g : Str,
    (groupEntries g st).map Prod.snd = natSeq (groupEntries g st).length ∧
    nextGroupNum g st = (groupEntries g st).length + 1) ∧
  (globalEntries st).map Prod.snd = natSeq (globalEntries st).length ∧
  st.global_counter = (globalEntries st).length + 1

theorem takeWhile_append_of_all {p : Char → Bool} {a : Str} (b : Str)
    (h : ∀ c ∈ a, p c = true) : (a ++ b).takeWhile p = a ++ b.takeWhile p := by
  induction a with
  | nil => simp
  | cons c rest ih =>
    have hc : p c = true := h c (List.mem_cons_self c rest)
    simp only [List.cons_append, List.takeWhile_cons, hc]
    rw [ih (fun x hx => h x (List.mem_cons_of_mem c hx))]
    simp

theorem keyGroup_gkey {g : Str} (l : Str) (hg : ':' ∉ g) : keyGroup (gkey g l) = some g := by
  unfold keyGroup gkey
  have hmem : ':' ∈ g ++ ':' :: l := List.mem_append_right g (List.mem_cons_self ':' l)
  rw [if_pos hmem]
  have hall : ∀ c ∈ g, (fun c => decide (c ≠ ':')) c = true := by
    intro c hc
    simp only [decide_eq_true_eq]
    exact fun hh => hg (hh ▸ hc)
  rw [takeWhile_append_of_all (':' :: l) hall]
  simp

theorem keyGroup_bare {l : Str} (hl : ':' ∉ l) : keyGroup l = none := by
  unfold keyGroup
  rw [if_neg hl]

theorem natSeq_succ (k : Nat) : natSeq (k + 1) = natSeq k ++ [natStr (k + 1)] := by
  unfold natSeq
  rw [List.range_succ, List.map_append]
  simp

theorem regInv_reset : RegInv resetState := by
  refine ⟨fun g => ⟨?_, ?_⟩, ?_, ?_⟩ <;>
    simp [groupEntries, globalEntries, resetState, natSeq, nextGroupNum, alookup]

theorem regInv_declareGrouped {st : RegSt} {g : Str} (l : Str) (hg : ':' ∉ g)
    (hinv : RegInv st) : RegInv (declareGrouped st g l) := by
  by_cases h : (alookup (gkey g l) st.label_map).isSome = true
  · have hid : declareGrouped st g l = st := by simp [declareGrouped, h]
    rw [hid]
    exact hinv
  · obtain ⟨hgrp, hglob, hgc⟩ := hinv
    have hst' : declareGrouped st g l = { st with
        label_map := st.label_map ++ [(gkey g l, natStr ((alookup g st.group_counters).getD 1))],
        group_counters := setCounter g ((alookup g st.group_counters).getD 1 + 1)
          st.group_counters } := by
      simp [declareGrouped, h]
    have hkg := keyGroup_gkey l hg
    obtain ⟨hmap_g, hnum_g⟩ := hgrp g
    have hcval : (alookup g st.group_counters).getD 1 = (groupEntries g st).length + 1 := hnum_g
    rw [hst']
    refine ⟨fun g' => ?_, ?_, ?_⟩
    · by_cases hg' : g' = g
      · subst hg'
        have he : groupEntries g' { st with
            label_map := st.label_map ++ [(gkey g' l, natStr ((alookup g' st.group_counters).getD 1))],
            group_counters := setCounter g' ((alookup g' st.group_counters).getD 1 + 1)
              st.group_counters } =
            groupEntries g' st ++ [(gkey g' l, natStr ((alookup g' st.group_counters).getD 1))] := by
          simp [groupEntries, List.filter_append, hkg]
        constructor
        · rw [he, List.map_append, List.length_append]
          simp only [List.map_cons, List.map_nil, List.length_cons, List.length_nil]
          rw [hmap_g, hcval, natSeq_succ]
        · unfold nextGroupNum
          simp only [alookup_setCounter_self, Option.getD_some]
          rw [he]
          simp only [List.length_append, List.length_cons, List.length_nil]
          rw [hcval]
      · have he : groupEntries g' { st with
            label_map := st.label_map ++ [(gkey g l, natStr ((alookup g st.group_counters).getD 1))],
            group_counters := setCounter g ((alookup g st.group_counters).getD 1 + 1)
              st.group_counters } = groupEntries g' st := by
          have hne : ¬(keyGroup (gkey g l) = some g') := by
            rw [hkg]
            intro hh
            exact hg' (Option.some_injective _ hh).symm
          simp [groupEntries, List.filter_append, hne]
        rw [he]
        refine ⟨(hgrp g').1, ?_⟩
        unfold nextGroupNum
        simp only [alookup_setCounter_ne hg']
        exact (hgrp g').2
    · have he : globalEntries { st with
          label_map := st.label_map ++ [(gkey g l, natStr ((alookup g st.group_counters).getD 1))],
          group_counters := setCounter g ((alookup g st.group_counters).getD 1 + 1)
            st.group_counters } = globalEntries st := by
        have hne : ¬(keyGroup (gkey g l) = none) := by
          rw [hkg]
          simp
        simp [globalEntries, List.filter_append, hne]
      rw [he]
      exact hglob
    · have he : globalEntries { st with
          label_map := st.label_map ++ [(gkey g l, natStr ((alookup g st.group_counters).getD 1))],
          group_counters := setCounter g ((alookup g st.group_counters).getD 1 + 1)
            st.group_counters } = globalEntries st := by
        have hne : ¬(keyGroup (gkey g l) = none) := by
          rw [hkg]
          simp
        simp [globalEntries, List.filter_append, hne]
      rw [he]
      exact hgc

theorem regInv_declareGlobal {st : RegSt} {l : Str} (hl : ':' ∉ l)
    (hinv : RegInv st) : RegInv (declareGlobal st l) := by
  by_cases h : (alookup l st.label_map).isSome = true
  · have hid : declareGlobal st l = st := by simp [declareGlobal, h]
    rw [hid]
    exact hinv
  · obtain ⟨hgrp, hglob, hgc⟩ := hinv
    have hst' : declareGlobal st l = { st with
        label_map := st.label_map ++ [(l, natStr st.global_counter)],
        global_counter := st.global_counter + 1 } := by
      simp [declareGlobal, h]
    have hkg := keyGroup_bare hl
    rw [hst']
    refine ⟨fun g' => ?_, ?_, ?_⟩
    · have he : groupEntries g' { st with
          label_map := st.label_map ++ [(l, natStr st.global_counter)],
          global_counter := st.global_counter + 1 } = groupEntries g' st := by
        have hne : ¬(keyGroup l = some g') := by
          rw [hkg]
          simp
        simp [groupEntries, List.filter_append, hne]
      rw [he]
      exact ⟨(hgrp g').1, (hgrp g').2⟩
    · have he : globalEntries { st with
          label_map := st.label_map ++ [(l, natStr st.global_counter)],
          global_counter := st.global_counter + 1 } =
          globalEntries st ++ [(l, natStr st.global_counter)] := by
        simp [globalEntries, List.filter_append, hkg]
      rw [he, List.map_append, List.length_append]
      simp only [List.map_cons, List.map_nil, List.length_cons, List.length_nil]
      rw [hglob, hgc, natSeq_succ]
    · have he : globalEntries { st with
          label_map := st.label_map ++ [(l, natStr st.global_counter)],
          global_counter := st.global_counter + 1 } =
          globalEntries st ++ [(l, natStr st.global_counter)] := by
        simp [globalEntries, List.filter_append, hkg]
      rw [he]
      simp only [List.length_append, List.length_cons, List.length_nil]
      rw [hgc]

theorem word_no_colon {t : Str} (h : ∀ c ∈ t, isWordChar c = true) : ':' ∉ t := by
  intro hm
  have := h ':' hm
  simp [isWordChar] at this

theorem groupedTokens_no_colon (s : Str) : ∀ p ∈ groupedTokens s, ':' ∉ p.1 := by
  refine groupedTokens.induct (fun s => ∀ p ∈ groupedTokens s, ':' ∉ p.1) ?_ ?_ ?_ ?_ s
  · simp [groupedTokens_nil]
  · intro rest g l r htg ih
    rw [groupedTokens_eq]
    simp only [reduceIte, htg]
    intro p hp
    rcases List.mem_cons.mp hp with h1 | h1
    · obtain ⟨-, -, -, hgw, -⟩ := tryGrouped_decomp htg
      rw [h1]
      exact word_no_colon hgw
    · exact ih p h1
  · intro rest htg ih
    rw [groupedTokens_eq]
    simp only [reduceIte, htg]
    exact ih
  · intro c rest hc ih
    rw [groupedTokens_eq, if_neg hc]
    exact ih

theorem globalCollectTokens_no_colon (s : Str) : ∀ w ∈ globalCollectTokens s, ':' ∉ w := by
  refine globalCollectTokens.induct (fun s => ∀ w ∈ globalCollectTokens s, ':' ∉ w) ?_ ?_ ?_ ?_ s
  · simp [globalCollectTokens_nil]
  · intro rest w r htg ih
    rw [globalCollectTokens_eq]
    simp only [reduceIte, htg]
    intro w' hw'
    rcases List.mem_cons.mp hw' with h1 | h1
    · obtain ⟨-, -, hww⟩ := tryGlobalCollect_decomp htg
      rw [h1]
      exact word_no_colon hww
    · exact ih w' h1
  · intro rest htg ih
    rw [globalCollectTokens_eq]
    simp only [reduceIte, htg]
    exact ih
  · intro c rest hc ih
    rw [globalCollectTokens_eq, if_neg hc]
    exact ih

theorem regInv_foldl_grouped (ts : List (Str × Str)) :
    ∀ st : RegSt, (∀ p ∈ ts, ':' ∉ p.1) → RegInv st →
      RegInv (ts.foldl (fun s p => declareGrouped s p.1 p.2) st) := by
  induction ts with
  | nil => intro st _ hinv; exact hinv
  | cons p rest ih =>
    intro st hts hinv
    simp only [List.foldl_cons]
    exact ih (declareGrouped st p.1 p.2)
      (fun q hq => hts q (List.mem_cons_of_mem p hq))
      (regInv_declareGrouped p.2 (hts p (List.mem_cons_self p rest)) hinv)

theorem regInv_foldl_global (ts : List Str) :
    ∀ st : RegSt, (∀ w ∈ ts, ':' ∉ w) → RegInv st →
      RegInv (ts.foldl declareGlobal st) := by
  induction ts with
  | nil => intro st _ hinv; exact hinv
  | cons w rest ih =>
    intro st hts hinv
    simp only [List.foldl_cons]
    exact ih (declareGlobal st w)
      (fun q hq => hts q (List.mem_cons_of_mem w hq))
      (regInv_declareGlobal (hts w (List.mem_cons_self w rest)) hinv)

theorem regInv_collectLine {st : RegSt} (line : Str) (hinv : RegInv st) :
    RegInv (collectLine st line) := by
  unfold collectLine
  exact regInv_foldl_global (globalCollectTokens line) _
    (globalCollectTokens_no_colon line)
    (regInv_foldl_grouped (groupedTokens line) st (groupedTokens_no_colon line) hinv)

theorem regInv_collect_labels (lines : List Str) :
    ∀ st : RegSt, RegInv st → RegInv (collect_labels st lines) := by
  induction lines with
  | nil => intro st hinv; exact hinv
  | cons l ls ih =>
    intro st hinv
    unfold collect_labels at ih ⊢
    simp only [List.foldl_cons]
    exact ih (collectLine st l) (regInv_collectLine l hinv)

/-- C10: counter-contiguity invariant.  After any sequence of
collection-pass calls on a freshly reset processor, for every group
the stored numbers are exactly the decimal strings `"1"` through
`"k"` in first-declaration order (`k` = the number of distinct keys
declared in that group) and the group's next number is `k + 1`;
likewise the bare-label numbers are `"1"` through `"m"` and the
global counter is `m + 1`. -/
theorem c10_counter_contiguity :
    ∀ seqs : List (List Str), RegInv (seqs.foldl collect_labels resetState) := by
  intro seqs
  have hmain : ∀ st : RegSt, RegInv st → RegInv (seqs.foldl collect_labels st) := by
    induction seqs with
    | nil => intro st hinv; exact hinv
    | cons s rest ih =>
      intro st hinv
      simp only [List.foldl_cons]
      exact ih (collect_labels st s) (regInv_collect_labels s st hinv)
  exact hmain resetState regInv_reset
